import Mathlib

/-!
Verification of the copilot-code-review extension's text-processing core.

The definitions below are a shallow embedding of the TypeScript sources:
  * `src/commands/codeReview/reviewCodeCommand.helpers.ts`
    (regular-expression parsing of model output, grouping, anchoring,
    streaming with raw-text fallback),
  * `src/commands/commandUtils.ts`
    (chat command gating, git diff acquisition),
  * `src/services/copilot.ts`
    (language-model request/response assembly),
  * the command handlers in `reviewCodeCommand.ts` and
    `descriptionCommand.ts`.

JavaScript strings are modelled as `List Char` / `String`; the three
regular expressions of the parser and the split patterns are hand-compiled
into backtracking-faithful matchers.  Host-editor effects (the chat
response stream) are modelled as a list of emitted events; external
processes (git, the language model) are oracles passed as explicit
arguments.
-/

namespace CCR

/-- The backtick character (U+0060), kept out of character literals. -/
def backtickChar : Char := Char.ofNat 96

/-- The single-quote character (U+0027), kept out of character literals. -/
def quoteChar : Char := Char.ofNat 39

/-- JavaScript whitespace as used by `String.prototype.trim` and `\s`. -/
def isJsWs (c : Char) : Bool :=
  c == ' ' || c == '\t' || c == '\n' || c == '\r' ||
  c.toNat == 11 || c.toNat == 12 || c.toNat == 0xA0 || c.toNat == 0x1680 ||
  (0x2000 ≤ c.toNat && c.toNat ≤ 0x200A) ||
  c.toNat == 0x2028 || c.toNat == 0x2029 || c.toNat == 0x202F ||
  c.toNat == 0x205F || c.toNat == 0x3000 || c.toNat == 0xFEFF

/-- `String.prototype.trim` on a character list. -/
def jsTrimL (l : List Char) : List Char :=
  ((l.dropWhile isJsWs).reverse.dropWhile isJsWs).reverse

/-- `String.prototype.trim`, producing a `String`. -/
def trimS (l : List Char) : String := String.mk (jsTrimL l)

/-- Substring search over character lists. -/
def hasInfix (pat : List Char) : List Char → Bool
  | [] => pat.isEmpty
  | c :: rest => pat.isPrefixOf (c :: rest) || hasInfix pat rest

/-- `String.prototype.includes`: substring containment. -/
def jsIncludes (s pat : String) : Bool := hasInfix pat.data s.data

/-- Case-insensitive literal prefix test (ASCII case folding, as the
`i` flag of the source's regular expressions). -/
def ciPrefixOf : List Char → List Char → Bool
  | [], _ => true
  | _ :: _, [] => false
  | p :: ps, c :: cs => p.toLower == c.toLower && ciPrefixOf ps cs

/-- Digit prefix of a list, for `\d+`. -/
def digitsAt (l : List Char) : List Char := l.takeWhile Char.isDigit

/-- `parseInt` on a non-empty digit string. -/
def natOfDigits (ds : List Char) : Nat :=
  ds.foldl (fun a c => a * 10 + (c.toNat - '0'.toNat)) 0

/-- Remove the first occurrence of a character,
as `String.prototype.replace(c, '')` with a one-character pattern. -/
def removeFirstChar (c : Char) : List Char → List Char
  | [] => []
  | x :: xs => if x = c then xs else x :: removeFirstChar c xs

/-! ### The `FILE_PATTERNS.HEADING` regular expression

`/^#{1,3} (?:File: |In |)(?:`|)([^`\n:]+)(?:`|)(?::|\n|$)/m` -/

/-- Character class `[^`\n:]` of the heading pattern. -/
def headingClass (c : Char) : Bool :=
  c != backtickChar && c != '\n' && c != ':'

/-- Tail of the heading pattern after the optional keyword:
`(?:`|)([^`\n:]+)(?:`|)(?::|\n|$)`; returns the captured group.
The greedy class run cannot be profitably shortened (any shorter run is
followed by another class character, never by a terminator), so the
maximal run is the only candidate. -/
def headingTail (t : List Char) : Option (List Char) :=
  let t1 := if t.head? = some backtickChar then t.drop 1 else t
  let run := t1.takeWhile headingClass
  if run.isEmpty then none
  else
    let after := t1.drop run.length
    let after1 := if after.head? = some backtickChar then after.drop 1 else after
    if after1.isEmpty || after1.head? = some ':' || after1.head? = some '\n' then
      some run
    else none

/-- One keyword alternative of `(?:File: |In |)` followed by the tail. -/
def headingAfterKeyword (kw : String) (t : List Char) : Option (List Char) :=
  if kw.data.isPrefixOf t then headingTail (t.drop kw.length) else none

/-- Attempt the heading pattern at one position (which the caller has
checked to be a line start).  `#{1,3} ` commits to the maximal hash run of
length at most 3: shorter runs are followed by `#`, never by a space. -/
def matchHeadingHere (s : List Char) : Option (List Char) :=
  let r := (s.takeWhile (fun c => c == '#')).length
  if 1 ≤ r ∧ r ≤ 3 ∧ (s.drop r).head? = some ' ' then
    let t := s.drop (r + 1)
    (headingAfterKeyword "File: " t).orElse fun _ =>
      (headingAfterKeyword "In " t).orElse fun _ => headingTail t
  else none

/-- Leftmost match of the heading pattern; the `m` flag restricts start
positions to line starts.  Returns the captured group. -/
def findHeadingAux : Bool → List Char → Option (List Char)
  | _, [] => none
  | atStart, c :: rest =>
    match (if atStart then matchHeadingHere (c :: rest) else none) with
    | some g => some g
    | none => findHeadingAux (c == '\n') rest

/-- `section.match(FILE_PATTERNS.HEADING)`, group 1. -/
def findHeading (s : List Char) : Option (List Char) := findHeadingAux true s

/-! ### The `FILE_PATTERNS.INLINE` regular expression

`/(?:in|file) [`']?([^`'\n:]+\.[a-zA-Z0-9]+)[`']?/i` -/

/-- Character class `[^`'\n:]` of the inline pattern. -/
def inlineClass (c : Char) : Bool :=
  c != backtickChar && c != quoteChar && c != '\n' && c != ':'

/-- Attempt the inline pattern at one position; returns the captured
group `[^`'\n:]+\.[a-zA-Z0-9]+`.  The greedy class backtracks to the
largest split placing a literal dot followed by an alphanumeric
character; the alphanumeric run is then taken greedily. -/
def matchInlineHere (s : List Char) : Option (List Char) :=
  let afterKw : Option (List Char) :=
    if ciPrefixOf "in ".data s then some (s.drop 3)
    else if ciPrefixOf "file ".data s then some (s.drop 5)
    else none
  match afterKw with
  | none => none
  | some t =>
    let t1 := if t.head? = some backtickChar || t.head? = some quoteChar then t.drop 1 else t
    let run := t1.takeWhile inlineClass
    match ((List.range run.length).reverse.find? fun i =>
        decide (1 ≤ i) && (run.getD i ' ' == '.') && (run.getD (i + 1) ' ').isAlphanum) with
    | none => none
    | some i => some (run.take i ++ '.' :: (run.drop (i + 1)).takeWhile Char.isAlphanum)

/-- Leftmost match of the inline pattern; returns the captured group. -/
def findInline : List Char → Option (List Char)
  | [] => none
  | c :: rest =>
    match matchInlineHere (c :: rest) with
    | some g => some g
    | none => findInline rest

/-! ### The `LINE_PATTERNS.LINE_REF` regular expression

`/(?:line |L)(\d+)(?:-(\d+))?|:(\d+)(?:-(\d+))?:|on line (\d+)(?:-(\d+))?/i` -/

/-- Consume an optional `-(\d+)` range suffix after `len` consumed
characters with first number `n`; returns total length, first number and
optional second number. -/
def withRange (len : Nat) (n : Nat) (t : List Char) : Nat × Nat × Option Nat :=
  match t with
  | '-' :: u =>
    let ds := digitsAt u
    if ds.isEmpty then (len, n, none)
    else (len + 1 + ds.length, n, some (natOfDigits ds))
  | _ => (len, n, none)

/-- First alternative `(?:line |L)(\d+)(?:-(\d+))?` at one position. -/
def lineRefAlt1 (s : List Char) : Option (Nat × Nat × Option Nat) :=
  let viaWord : Option (Nat × Nat × Option Nat) :=
    if ciPrefixOf "line ".data s then
      let ds := digitsAt (s.drop 5)
      if ds.isEmpty then none
      else some (withRange (5 + ds.length) (natOfDigits ds) (s.drop (5 + ds.length)))
    else none
  match viaWord with
  | some r => some r
  | none =>
    match s with
    | c :: rest =>
      if c == 'l' || c == 'L' then
        let ds := digitsAt rest
        if ds.isEmpty then none
        else some (withRange (1 + ds.length) (natOfDigits ds) (rest.drop ds.length))
      else none
    | [] => none

/-- Second alternative `:(\d+)(?:-(\d+))?:` at one position. -/
def lineRefAlt2 (s : List Char) : Option (Nat × Nat × Option Nat) :=
  match s with
  | ':' :: t =>
    let ds := digitsAt t
    if ds.isEmpty then none
    else
      let after := t.drop ds.length
      match after with
      | '-' :: u =>
        let ds2 := digitsAt u
        if !ds2.isEmpty && (u.drop ds2.length).head? = some ':' then
          some (1 + ds.length + 1 + ds2.length + 1, natOfDigits ds, some (natOfDigits ds2))
        else none
      | _ =>
        if after.head? = some ':' then
          some (1 + ds.length + 1, natOfDigits ds, none)
        else none
  | _ => none

/-- Third alternative `on line (\d+)(?:-(\d+))?` at one position. -/
def lineRefAlt3 (s : List Char) : Option (Nat × Nat × Option Nat) :=
  if ciPrefixOf "on line ".data s then
    let ds := digitsAt (s.drop 8)
    if ds.isEmpty then none
    else some (withRange (8 + ds.length) (natOfDigits ds) (s.drop (8 + ds.length)))
  else none

/-- The line-reference pattern at one position: alternatives in source
order.  Returns match length, first captured number, optional second. -/
def matchLineRefHere (s : List Char) : Option (Nat × Nat × Option Nat) :=
  (lineRefAlt1 s).orElse fun _ => (lineRefAlt2 s).orElse fun _ => lineRefAlt3 s

/-- Leftmost match of the line-reference pattern with its start index. -/
def findLineRefAux (pos : Nat) : List Char → Option (Nat × Nat × Nat × Option Nat)
  | [] => none
  | c :: rest =>
    match matchLineRefHere (c :: rest) with
    | some (len, n, m) => some (pos, len, n, m)
    | none => findLineRefAux (pos + 1) rest

/-- `line.match(LINE_PATTERNS.LINE_REF)` with match position. -/
def findLineRef (s : List Char) : Option (Nat × Nat × Nat × Option Nat) :=
  findLineRefAux 0 s

/-- `line.replace(LINE_PATTERNS.LINE_REF, '')`: delete the first match. -/
def replaceFirstLineRef (s : List Char) : List Char :=
  match findLineRef s with
  | none => s
  | some (pos, len, _, _) => s.take pos ++ s.drop (pos + len)

/-! ### The split patterns

`content.split(/(?=^#{1,3} )/m)` and
`section.split(/\n(?:[-*+] |(?=\d+\. ))/)`. -/

/-- Does the list start with a level-1..3 markdown heading marker
(`#{1,3} `, the lookahead of the section split)? -/
def headingStartB (s : List Char) : Bool :=
  let r := (s.takeWhile (fun c => c == '#')).length
  decide (1 ≤ r) && decide (r ≤ 3) && ((s.drop r).head? == some ' ')

/-- Worker for the section split: cut after each newline that is followed
by a heading marker.  A zero-width match at index 0 does not split in
JavaScript, and the lookahead leaves the newline in the preceding piece. -/
def splitSectionsAux : List Char → List Char → List (List Char)
  | [], acc => [acc.reverse]
  | c :: rest, acc =>
    if c == '\n' && headingStartB rest then
      (c :: acc).reverse :: splitSectionsAux rest []
    else splitSectionsAux rest (c :: acc)

/-- `content.split(/(?=^#{1,3} )/m)`. -/
def splitSections (s : List Char) : List (List Char) := splitSectionsAux s []

/-- Does the list start with `[-*+] ` (the consumed bullet marker)? -/
def bulletStart : List Char → Bool
  | b :: ' ' :: _ => b == '-' || b == '*' || b == '+'
  | _ => false

/-- Does the list start with `\d+\. ` (the numbered-list lookahead)? -/
def numberedStart (s : List Char) : Bool :=
  let ds := digitsAt s
  !ds.isEmpty && ((s.drop ds.length).head? == some '.') &&
    ((s.drop (ds.length + 1)).head? == some ' ')

/-- Worker for the line split, with fuel for termination; the fuel is
always at least the list length, so the base case is unreachable. -/
def splitLinesFuel : Nat → List Char → List Char → List (List Char)
  | 0, s, acc => [acc.reverse ++ s]
  | fuel + 1, s, acc =>
    match s with
    | [] => [acc.reverse]
    | c :: rest =>
      if c == '\n' && bulletStart rest then
        acc.reverse :: splitLinesFuel fuel (rest.drop 2) []
      else if c == '\n' && numberedStart rest then
        acc.reverse :: splitLinesFuel fuel rest []
      else splitLinesFuel fuel rest (c :: acc)

/-- `section.split(/\n(?:[-*+] |(?=\d+\. )))/)`. -/
def splitLines (s : List Char) : List (List Char) :=
  splitLinesFuel (s.length + 1) s []

/-- Split on newline characters, as `String.prototype.split('\n')`. -/
def splitOnNlAux : List Char → List Char → List (List Char)
  | [], acc => [acc.reverse]
  | c :: rest, acc =>
    if c == '\n' then acc.reverse :: splitOnNlAux rest []
    else splitOnNlAux rest (c :: acc)

/-- `section.split('\n')`. -/
def splitOnNl (s : List Char) : List (List Char) := splitOnNlAux s []

/-! ### `parseReviewComments` and `parseSectionComments`
from `reviewCodeCommand.helpers.ts`. -/

/-- A structured finding recovered from the model's markdown
(`CodeReviewComment` of `reviewCodeCommand.types.ts`): JavaScript's
`file?: string` is `Option String`, `lineNumbers?: number[]` is
`Option (List Nat)`. -/
structure CodeReviewComment where
  file : Option String
  lineNumbers : Option (List Nat)
  comment : String
deriving Repr, DecidableEq

/-- JavaScript truthiness of a `string | undefined` value:
`undefined` and the empty string are falsy. -/
def truthy : Option String → Bool
  | none => false
  | some s => !(s == "")

/-- The `lineNumbers` value built from the first line-reference match of
a line: `[first]`, or `[first, second]` when a range suffix was parsed. -/
def lineNumbersOf (line : List Char) : Option (List Nat) :=
  match findLineRef line with
  | none => none
  | some (_, _, n, none) => some [n]
  | some (_, _, n, some m) => some [n, m]

/-- `line.replace(LINE_PATTERNS.LINE_REF, '').replace(':', '').trim()`. -/
def strip (line : List Char) : String :=
  trimS (removeFirstChar ':' (replaceFirstLineRef line))

/-- The skip condition of the parsing loop:
`!line.trim() || line.trim().startsWith('#')`. -/
def skipLine (line : List Char) : Bool :=
  let t := jsTrimL line
  t.isEmpty || t.head? == some '#'

/-- The per-line loop of `parseSectionComments`: carries the mutable
`file` variable across lines of the section. -/
def parseLinesLoop : Option String → List (List Char) → List CodeReviewComment
  | _, [] => []
  | file, line :: rest =>
    if skipLine line then parseLinesLoop file rest
    else
      let file' :=
        if truthy file then file
        else
          match findInline line with
          | some g => some (trimS g)
          | none => file
      ⟨file', lineNumbersOf line, strip line⟩ :: parseLinesLoop file' rest

/-- The initial `file` value of a section: the heading capture, or
(when falsy) an inline reference in the first three raw lines. -/
def sectionInitialFile (sec : List Char) : Option String :=
  let fromHeading := (findHeading sec).map (fun g => trimS g)
  if truthy fromHeading then fromHeading
  else
    let firstLines := List.intercalate ['\n'] ((splitOnNl sec).take 3)
    match findInline firstLines with
    | some g => some (trimS g)
    | none => fromHeading

/-- `parseSectionComments` of `reviewCodeCommand.helpers.ts`. -/
def parseSectionComments (sec : List Char) : List CodeReviewComment :=
  parseLinesLoop (sectionInitialFile sec) (splitLines sec)

/-- `parseReviewComments` of `reviewCodeCommand.helpers.ts`. -/
def parseReviewComments (content : String) : List CodeReviewComment :=
  ((splitSections content.data).map parseSectionComments).flatten

/-- `hasFileReferences`: `comments.some(comment => comment.file)`. -/
def hasFileReferences (comments : List CodeReviewComment) : Bool :=
  comments.any (fun c => truthy c.file)

/-! ### `groupCommentsByFile`

A JavaScript `Map` is modelled as an association list whose keys are in
first-insertion order; `push` appends at the end of a group. -/

/-- Append a comment to the group of key `k`, creating the group at the
end when absent (the `Map` insertion of `groupCommentsByFile`). -/
def insertGroup (m : List (String × List CodeReviewComment)) (k : String)
    (c : CodeReviewComment) : List (String × List CodeReviewComment) :=
  if m.any (fun p => p.1 == k) then
    m.map (fun p => if p.1 == k then (p.1, p.2 ++ [c]) else p)
  else m ++ [(k, [c])]

/-- `groupCommentsByFile` of `reviewCodeCommand.helpers.ts`: collect
comments with truthy `file` fields, then fall back to a single
`'Current File'` group when none was collected and the list is
non-empty. -/
def groupCommentsByFile (comments : List CodeReviewComment) :
    List (String × List CodeReviewComment) :=
  let m := comments.foldl
    (fun m c =>
      match c.file with
      | some f => if !(f == "") then insertGroup m f c else m
      | none => m)
    []
  if m.isEmpty && !comments.isEmpty then [("Current File", comments)] else m

/-! ### Streaming with anchors

A `vscode.ChatResponseStream` is modelled as the list of events emitted
on it; a `vscode.Uri` is modelled by its path string, and positions use
`Int` coordinates reflecting the source's arithmetic. -/

/-- An event emitted on the chat response stream.  `modelCall` marks the
hand-off to the generation stage, the only path to the language model. -/
inductive StreamEvent where
  | markdown (s : String)
  | anchorPos (uri : String) (line col : Int) (text : String)
  | anchorRange (uri : String) (startLine startCol endLine endCol : Int) (text : String)
  | reference (uri : String)
  | progress (s : String)
  | modelCall
deriving Repr, DecidableEq

/-- `createFileUri` of `reviewCodeCommand.helpers.ts`. -/
def createFileUri (base file : String) : String :=
  if file = "Current File" then base
  else if file.data.isSuffixOf base.data then base
  else base ++ "/" ++ file

/-- Whether the host editor accepts a position: `new vscode.Position`
throws on a negative line or character argument. -/
def positionOk (line col : Int) : Bool := 0 ≤ line && 0 ≤ col

/-- `new vscode.Range(start, end)`: the host editor swaps the endpoints
when `start` is after `end` (line-then-character order). -/
def rangeOf (sl sc el ec : Int) : Int × Int × Int × Int :=
  if sl < el ∨ (sl = el ∧ sc ≤ ec) then (sl, sc, el, ec) else (el, ec, sl, sc)

/-- `createCustomAnchor` of `reviewCodeCommand.helpers.ts`, including its
catch clause: the start position is built first, then the end position
when a range was parsed; if either constructor rejects its arguments (a
parsed line number 0 gives line `-1`), the catch emits the anchor text as
plain markdown and no anchor is bound.  A surviving range is ordered by
the host editor. -/
def createCustomAnchor (targetUri : String) (lineNumbers : Option (List Nat))
    (customText : String) : List StreamEvent :=
  match lineNumbers with
  | none => [.anchorPos targetUri 0 0 customText]
  | some [] => [.anchorPos targetUri 0 0 customText]
  | some [n] =>
    if positionOk ((n : Int) - 1) 0 then
      [.anchorPos targetUri ((n : Int) - 1) 0 customText]
    else [.markdown customText]
  | some (n :: m :: _) =>
    if positionOk ((n : Int) - 1) 0 then
      if positionOk ((m : Int) - 1) 0 then
        let r := rangeOf ((n : Int) - 1) 0 ((m : Int) - 1) 0
        [.anchorRange targetUri r.1 r.2.1 r.2.2.1 r.2.2.2 customText]
      else [.markdown customText]
    else [.markdown customText]

/-- `streamCommentWithAnchor` of `reviewCodeCommand.helpers.ts`; its own
catch is unreachable because `createFileUri` and `createCustomAnchor`
catch internally. -/
def streamCommentWithAnchor (c : CodeReviewComment) (docUri file : String)
    (index : Nat) : List StreamEvent :=
  let commentText := "- " ++ c.comment
  match c.lineNumbers with
  | some (n :: rest) =>
      let targetUri := createFileUri docUri file
      .markdown (toString (index + 1) ++ ". ") ::
        createCustomAnchor targetUri (some (n :: rest)) "View code" ++
        [.markdown ("\n" ++ commentText ++ "\n\n")]
  | _ => [.markdown (commentText ++ "\n\n")]

/-- `file.split('/').pop()`. -/
def lastPathSegment (f : String) : String :=
  ((f.split (fun c => c = '/')).getLast?).getD ""

/-- `streamCommentsWithAnchors`: with a workspace folder, a heading plus
anchored comments per group; without one, the thrown error is caught and
each group is emitted as plain markdown. -/
def streamCommentsWithAnchors (wf : Option String)
    (fileGroups : List (String × List CodeReviewComment)) : List StreamEvent :=
  match wf with
  | none =>
      fileGroups.flatMap (fun p =>
        .markdown ("## " ++ p.1 ++ "\n\n") ::
          p.2.map (fun c => .markdown ("- " ++ c.comment ++ "\n\n")))
  | some w =>
      fileGroups.flatMap (fun p =>
        [.markdown ("#### " ++ lastPathSegment p.1 ++ " "), .markdown "\n"] ++
        (p.2.enum.flatMap (fun ic => streamCommentWithAnchor ic.2 w p.1 ic.1)))

/-- The structured branch of `streamCodeReview`: one file reference per
group followed by the anchored comment sections. -/
def structuredReviewOutput (w : String)
    (fileGroups : List (String × List CodeReviewComment)) : List StreamEvent :=
  fileGroups.map (fun p => StreamEvent.reference (createFileUri w p.1)) ++
    streamCommentsWithAnchors (some w) fileGroups

/-- `streamCodeReview` of `reviewCodeCommand.helpers.ts`.  The missing
workspace folder is the thrown-and-caught error path: nothing has been
emitted at the throw site, so the catch emits exactly the raw content. -/
def streamCodeReview (wf : Option String) (reviewContent : String) :
    List StreamEvent :=
  if reviewContent = "" then []
  else
    let comments := parseReviewComments reviewContent
    if comments = [] ∨ hasFileReferences comments = false then
      [.markdown reviewContent]
    else
      let fileGroups := groupCommentsByFile comments
      match wf with
      | none => [.markdown reviewContent]
      | some w => structuredReviewOutput w fileGroups

/-! ### `commandUtils.ts`: git diff acquisition -/

/-- `AVAILABLE_COMMANDS` of `commandUtils.ts`. -/
def AVAILABLE_COMMANDS : String :=
  "\n## Available Commands\n\n- `@pr /self-review` - Review your code changes compared to the main branch\n- `@pr /write-desc` - Generate a description for your code changes\n- `@pr /all` - Show this list of available commands\n\nType any of these commands to get started.\n"

/-- `GIT_ERROR_MESSAGES.NOT_A_REPO`. -/
def NOT_A_REPO : String := "The current workspace is not a git repository."

/-- `GIT_ERROR_MESSAGES.NO_MAIN_BRANCH`. -/
def NO_MAIN_BRANCH : String :=
  "Main branch not found. Please ensure your repository has a main or master branch."

/-- `GIT_ERROR_MESSAGES.GENERIC_GIT_ERROR`. -/
def GENERIC_GIT_ERROR : String := "Failed to get git diff: "

/-- `DiffResult` of `reviewCodeCommand.types.ts`. -/
structure DiffResult where
  diff : String
  mainBranchName : String
  error : Option String
deriving Repr, DecidableEq

/-- The external git binary, as an oracle: the output of
`git branch -a`, and the output of `git diff <branch>` per branch name.
A thrown error is modelled by its message string (a non-`Error` thrown
value surfaces as the message `'Unknown error'`). -/
structure GitEnv where
  branchListing : Except String String
  gitDiff : String → Except String String

/-- The catch branch of `getDiffWithMainBranch`: classify the error
message by substring. -/
def classifyGitError (msg : String) : DiffResult :=
  if jsIncludes msg "not a git repository" then ⟨"", "", some NOT_A_REPO⟩
  else if jsIncludes msg "did not match any" then ⟨"", "", some NO_MAIN_BRANCH⟩
  else ⟨"", "", some (GENERIC_GIT_ERROR ++ msg)⟩

/-- `getDiffWithMainBranch` of `commandUtils.ts`: pick `'main'` exactly
when the branch listing contains that substring, else `'master'`, then
diff against it; classify any failure. -/
def getDiffWithMainBranch (env : GitEnv) : DiffResult :=
  match env.branchListing with
  | .error e => classifyGitError e
  | .ok branchesOutput =>
    let mainBranchName := if jsIncludes branchesOutput "main" then "main" else "master"
    match env.gitDiff mainBranchName with
    | .error e => classifyGitError e
    | .ok diffOutput => ⟨diffOutput, mainBranchName, none⟩

/-! ### `commandUtils.ts`: command checks and registration -/

/-- The welcome message streamed for a bare `@pr` mention. -/
def welcomeMessage : String :=
  "# Welcome to Copilot Code Review\n\nThis extension helps you review and document your code changes.\n\n" ++
  AVAILABLE_COMMANDS ++
  "\n\nNeed help? Type `@pr /all` at any time to see this list again."

/-- `request.prompt.trim().match(/^@pr(\s*)$/i)`: the trimmed prompt is a
case-insensitive `@pr` followed only by whitespace. -/
def barePrMention (prompt : String) : Bool :=
  let t := jsTrimL prompt.data
  ciPrefixOf "@pr".data t && (t.drop 3).all isJsWs

/-- `/@pr\s+(\S+)/i` at one position: `@pr`, at least one whitespace
character, then the maximal non-whitespace run as the capture. -/
def matchAtPrHere (s : List Char) : Option (List Char) :=
  if ciPrefixOf "@pr".data s then
    let t := s.drop 3
    let ws := t.takeWhile isJsWs
    if ws.isEmpty then none
    else
      let cmd := (t.drop ws.length).takeWhile (fun c => !isJsWs c)
      if cmd.isEmpty then none else some cmd
  else none

/-- Leftmost match of `/@pr\s+(\S+)/i`; returns the captured command. -/
def findAttemptedCommand : List Char → Option (List Char)
  | [] => none
  | c :: rest =>
    match matchAtPrHere (c :: rest) with
    | some g => some g
    | none => findAttemptedCommand rest

/-- The unrecognized-command message of `handleCommandChecks`. -/
def unrecognizedMessage (attemptedCommand : String) : String :=
  "Command `" ++ attemptedCommand ++
  "` not recognized. Please use one of the available commands:" ++ AVAILABLE_COMMANDS

/-- The usage message of `handleCommandChecks` when no attempted command
could be extracted. -/
def usageMessage (commandTrigger : String) : String :=
  "Please use `" ++ commandTrigger ++
  "` to execute this command or `/all` to see all available commands."

/-- `handleCommandChecks` of `commandUtils.ts`: returns whether the
request is the expected command, together with the events streamed. -/
def handleCommandChecks (prompt commandTrigger : String) :
    Bool × List StreamEvent :=
  if jsIncludes prompt "/all" then (false, [.markdown AVAILABLE_COMMANDS])
  else if barePrMention prompt then (false, [.markdown welcomeMessage])
  else if !jsIncludes prompt commandTrigger then
    match findAttemptedCommand prompt.data with
    | some cmd => (false, [.markdown (unrecognizedMessage (String.mk cmd))])
    | none => (false, [.markdown (usageMessage commandTrigger)])
  else (true, [])

/-- The chat participant handler installed by `registerCommand`: the
command handler body (abstracted as its emitted events) runs exactly when
`handleCommandChecks` passes.  The second component records whether the
handler function was invoked. -/
def runRegisteredHandler (prompt commandTrigger : String)
    (body : List StreamEvent) : List StreamEvent × Bool :=
  let checks := handleCommandChecks prompt commandTrigger
  if checks.1 then (checks.2 ++ body, true) else (checks.2, false)

/-! ### `copilot.ts`: the language-model service -/

/-- `COPILOT_ERROR_MESSAGES.NO_MODEL`. -/
def COPILOT_NO_MODEL : String := "No suitable language model found for code review"

/-- `COPILOT_ERROR_MESSAGES.CANCELLED`. -/
def COPILOT_CANCELLED : String := "Operation cancelled by user"

/-- `COPILOT_ERROR_MESSAGES.UNKNOWN`. -/
def COPILOT_UNKNOWN : String := "An unknown error occurred during code review"

/-- A JavaScript thrown value: an `Error` with a message, or anything
else. -/
inductive JsThrown where
  | err (msg : String)
  | nonError
deriving Repr, DecidableEq

/-- `ICopilotResponse` of `copilot.ts`. -/
structure ICopilotResponse where
  content : String
  error : Option String
deriving Repr, DecidableEq

/-- `createErrorResponse` of `copilot.ts`: empty content with the error
message. -/
def createErrorResponse (errorMessage : String) : ICopilotResponse :=
  ⟨"", some errorMessage⟩

/-- `handleServiceError` of `copilot.ts`. -/
def handleServiceError : JsThrown → ICopilotResponse
  | .err m => createErrorResponse m
  | .nonError => createErrorResponse COPILOT_UNKNOWN

/-- The model request as an oracle: whether the token is already
cancelled before sending, the outcome of `model.sendRequest` (a thrown
value or the stream of response fragments in arrival order), and the
cancellation flag observed before consuming each fragment. -/
structure ModelRequestEnv where
  cancelledBeforeSend : Bool
  sendResult : Except JsThrown (List String)
  cancelDuring : Nat → Bool

/-- The fragment-accumulation loop of `sendRequestToModel`: cancellation
discards the partial content. -/
def receiveLoop (cancel : Nat → Bool) : Nat → String → List String → ICopilotResponse
  | _, acc, [] => ⟨acc, none⟩
  | i, acc, f :: fs =>
    if cancel i then createErrorResponse COPILOT_CANCELLED
    else receiveLoop cancel (i + 1) (acc ++ f) fs

/-- `sendRequestToModel` of `copilot.ts`. -/
def sendRequestToModel (env : ModelRequestEnv) : ICopilotResponse :=
  if env.cancelledBeforeSend then createErrorResponse COPILOT_CANCELLED
  else
    match env.sendResult with
    | .error e => handleServiceError e
    | .ok fragments => receiveLoop env.cancelDuring 0 "" fragments

/-- The oracles of `generatePRDescriptionWithCopilot`
(`descriptionCommand.helpers.ts`): initial cancellation, model selection,
prompt rendering, and the model request. -/
structure PRDescGenEnv where
  cancelledAtStart : Bool
  modelFound : Bool
  messagesOk : Bool
  request : ModelRequestEnv

/-- `generatePRDescriptionWithCopilot` of
`descriptionCommand.helpers.ts`. -/
def generatePRDescriptionWithCopilot (env : PRDescGenEnv) : ICopilotResponse :=
  if env.cancelledAtStart then createErrorResponse COPILOT_CANCELLED
  else if !env.modelFound then createErrorResponse COPILOT_NO_MODEL
  else if !env.messagesOk then
    createErrorResponse "Failed to create prompt messages for PR description"
  else sendRequestToModel env.request

/-! ### The two command handlers -/

/-- `getPRTemplate`'s result shape. -/
structure PRTemplateResult where
  content : String
  error : Option String

/-- `parseIncludeFilesFlag` of `codeReview/reviewCodeCommand.ts`: the
lowercased prompt contains `--include-files` or `-i` (an empty prompt is
falsy). -/
def parseIncludeFilesFlag (prompt : String) : Bool :=
  if prompt = "" then false
  else
    jsIncludes prompt.toLower "--include-files" || jsIncludes prompt.toLower "-i"

/-- `handleReviewCodeCommand` of `codeReview/reviewCodeCommand.ts`, with
the workspace folder and git as oracles; `review` abstracts the events of
`generateCodeReview`, entered at the `modelCall` marker.  The handler
never inspects `diffResult.error`: `getDiffWithMainBranch` catches
internally and returns an empty diff on failure, so a failed acquisition
falls into the blank-diff branch and streams the no-changes message.  The
handler's own catch is unreachable because every callee catches
internally. -/
def handleReviewCodeCommand (prompt : String) (wf : Option String)
    (git : GitEnv) (review : List StreamEvent) : List StreamEvent :=
  let includeFiles := parseIncludeFilesFlag prompt
  match wf with
  | none => [.markdown "Please open a workspace folder to review code differences."]
  | some _ =>
    let diffResult := getDiffWithMainBranch git
    .progress "Analyzing code differences with main branch..." ::
    (if trimS diffResult.diff.data = "" then
      [.markdown "No code changes detected compared to the main branch."]
    else
      (if includeFiles then
        StreamEvent.progress "Collecting changed files content for context..."
      else
        StreamEvent.progress
          "Skipping changed files content collection (add `--include-files` or `-i` flag to add file content)") ::
      .progress "Analyzing differences..." :: .modelCall :: review)

/-- The missing-template message of `handleDescriptionCommand`. -/
def missingTemplateMessage : String :=
  "#### Missing PR Template\n\nTo create a PR template:\n1. Create a `.github` directory in your repository root\n2. Add a `pull_request_template.md` file inside that directory\n3. Define your PR template structure\n\nWould you like to continue with a basic template? If so, please create the template file first.\n"

/-- `handleDescriptionCommand` of `descriptionCommand.ts`, with the
workspace folder, git, PR template and the generation outcome as
oracles; `modelCall` marks the `generatePRDescriptionWithCopilot`
invocation, the only path to the language model. -/
def handleDescriptionCommand (wf : Option String) (git : GitEnv)
    (tmpl : PRTemplateResult) (cancelledAfter : Bool)
    (response : ICopilotResponse) : List StreamEvent :=
  match wf with
  | none => [.markdown "Please open a workspace folder to generate a PR description."]
  | some _ =>
    let diffResult := getDiffWithMainBranch git
    .progress "Analyzing code differences with main branch..." ::
    (match diffResult.error with
     | some e => [.markdown e]
     | none =>
       if trimS diffResult.diff.data = "" then
         [.markdown "No code differences found with main branch."]
       else
         .progress "Fetching PR template..." ::
         (match tmpl.error with
          | some _ => [.markdown missingTemplateMessage]
          | none =>
            .progress "Generating PR description..." :: .modelCall ::
            (if cancelledAfter then []
             else
               match response.error with
               | some e => [.markdown ("PR description generation failed: " ++ e)]
               | none =>
                 [.markdown ("## Generated PR Description\n\n" ++ response.content),
                  .markdown "\n\n---\n*You can copy this description and use it for your pull request.*"])))

/-- The markdown texts among the emitted events, in order. -/
def mdTexts (events : List StreamEvent) : List String :=
  events.filterMap (fun e =>
    match e with
    | .markdown s => some s
    | _ => none)

/-- Whether the events include the hand-off to the language model. -/
def callsModel (events : List StreamEvent) : Bool :=
  events.any (fun e =>
    match e with
    | .modelCall => true
    | _ => false)

/-- Whether an event is a plain markdown emission. -/
def isMarkdownEvent : StreamEvent → Bool
  | .markdown _ => true
  | _ => false

/-- The concatenation of all markdown texts emitted, in order. -/
def emittedMarkdown (events : List StreamEvent) : String :=
  String.join (mdTexts events)

/-! ### Specification-side definitions

The following definitions transcribe the *words of the specification
sentences* under verification, to be compared with the source-derived
definitions above. -/

/-- The specification's per-finding file resolution, read literally: the
file comes from the section heading or the first three lines (`file0`)
"or the line itself" — with no influence from other lines. -/
def resolveFileClaim (file0 : Option String) (line : List Char) : Option String :=
  if truthy file0 then file0
  else
    match findInline line with
    | some g => some (trimS g)
    | none => file0

/-- `parseSectionComments` as described by the specification sentence:
one finding per non-empty, non-heading line, with the file resolved from
the heading, the first three lines, or the line itself. -/
def parseSectionCommentsClaim (sec : List Char) : List CodeReviewComment :=
  let file0 := sectionInitialFile sec
  (splitLines sec).filterMap (fun line =>
    if skipLine line then none
    else some ⟨resolveFileClaim file0 line, lineNumbersOf line, strip line⟩)

/-- `parseReviewComments` as described by the specification sentence. -/
def parseReviewCommentsClaim (content : String) : List CodeReviewComment :=
  ((splitSections content.data).map parseSectionCommentsClaim).flatten

/-- The first inline file reference found on a non-skipped line of the
given prefix of lines (used by the amended file-resolution clause). -/
def firstInlineNonSkipped : List (List Char) → Option String
  | [] => none
  | l :: rest =>
    if skipLine l then firstInlineNonSkipped rest
    else
      match findInline l with
      | some g => some (trimS g)
      | none => firstInlineNonSkipped rest

/-- The amended per-finding file resolution: the heading or first three
lines, or else the *first* inline reference on the current or an earlier
non-skipped line of the section. -/
def resolveFileAmended (file0 : Option String) (upTo : List (List Char)) :
    Option String :=
  if truthy file0 then file0
  else
    match firstInlineNonSkipped upTo with
    | some f => some f
    | none => file0

/-- The lines-to-findings map of the amended claim, carrying the lines
already seen: each finding's file is resolved afresh from the line prefix
up to and including its own line, independently of any parser state. -/
def amendedLinesAux (file0 : Option String) :
    List (List Char) → List (List Char) → List CodeReviewComment
  | _, [] => []
  | seen, l :: rest =>
    if skipLine l then amendedLinesAux file0 (seen ++ [l]) rest
    else
      CodeReviewComment.mk (resolveFileAmended file0 (seen ++ [l]))
          (lineNumbersOf l) (strip l) ::
        amendedLinesAux file0 (seen ++ [l]) rest

/-- `parseSectionComments` as described by the amended claim. -/
def parseSectionCommentsAmended (sec : List Char) : List CodeReviewComment :=
  amendedLinesAux (sectionInitialFile sec) [] (splitLines sec)

/-- `parseReviewComments` as described by the amended claim. -/
def parseReviewCommentsAmended (content : String) : List CodeReviewComment :=
  ((splitSections content.data).map parseSectionCommentsAmended).flatten

/-- The non-empty file of a comment, when present (JS truthiness). -/
def truthyFile (c : CodeReviewComment) : Option String :=
  match c.file with
  | some f => if f == "" then none else some f
  | none => none

/-- The distinct non-empty files of a comment list, in first-occurrence
order. -/
def firstKeys (cs : List CodeReviewComment) : List String :=
  (cs.filterMap truthyFile).foldl
    (fun acc f => if f ∈ acc then acc else acc ++ [f]) []

/-- The grouping described by the (amended) claim: one group per
distinct non-empty file, in first-occurrence order, each holding exactly
the comments bearing that file, in input order. -/
def groupSpec (cs : List CodeReviewComment) :
    List (String × List CodeReviewComment) :=
  (firstKeys cs).map (fun f => (f, cs.filter (fun c => c.file == some f)))

/-- An example git oracle: a repository whose listing contains
`main`. -/
def gitEnvMain : GitEnv := ⟨.ok "* main\n  remotes/origin/main\n", fun _ => .ok "some diff"⟩

/-- An example git oracle: `git branch -a` fails with a
not-a-repository message. -/
def gitEnvNoRepo : GitEnv :=
  ⟨.error "fatal: not a git repository (or any of the parent directories): .git",
   fun _ => .error "unreachable"⟩

/-- An example git oracle: a whitespace-only diff. -/
def gitEnvBlankDiff : GitEnv := ⟨.ok "* master\n", fun _ => .ok "  \n "⟩

/-! ## Theorems -/

theorem string_join_nil : String.join ([] : List String) = "" := by
  apply String.ext
  simp [String.join_eq]

theorem string_join_cons (f : String) (fs : List String) :
    String.join (f :: fs) = f ++ String.join fs := by
  apply String.ext
  simp [String.join_eq, String.data_append]

theorem positionOk_parsed (n : Nat) : positionOk ((n : Int) - 1) 0 = true ↔ 1 ≤ n := by
  simp only [positionOk, Bool.and_eq_true, decide_eq_true_eq]
  omega

/-- Claim C3, counterexample: a parsed line number 0 is reachable
(`- line 0: broken` parses to `lineNumbers = [0]`); the position
constructor rejects line `-1` and the catch streams the anchor text as
plain markdown, so no clickable location is bound, contrary to the claim;
moreover a reversed range `7-3` is ordered by the host editor to span
lines 2..6, not "from 6 to 2". -/
theorem streamCommentWithAnchor_cex :
    (CodeReviewComment.mk none (some [0]) "broken") ∈
        parseSectionComments "x\n- line 0: broken".data ∧
    (streamCommentWithAnchor (CodeReviewComment.mk none (some [0]) "broken")
        "/w" "a.ts" 0).all isMarkdownEvent = true ∧
    streamCommentWithAnchor (CodeReviewComment.mk none (some [7, 3]) "swap")
        "/w" "a.ts" 0 =
      [.markdown "1. ",
       .anchorRange "/w/a.ts" 2 0 6 0 "View code",
       .markdown "\n- swap\n\n"] := by
  decide

/-- Claim C3 (amended: the binding holds for parsed line numbers of at
least 1, a range's endpoints are ordered by the host editor — swapped
when `N > M` — and a parsed number 0 makes the position constructor fail
so the anchor text is streamed as plain markdown with no anchor): a
finding whose parsed numbers are positive is anchored at 0-based
`(N-1, 0)`, spanning the ordered pair of `(N-1, 0)` and `(M-1, 0)` for a
range, and a finding without a line number is plain comment text with no
anchor. -/
theorem streamCommentWithAnchor_amended (c : CodeReviewComment)
    (docUri file : String) (index : Nat) :
    (∀ n, c.lineNumbers = some [n] → 1 ≤ n →
      streamCommentWithAnchor c docUri file index =
        [.markdown (toString (index + 1) ++ ". "),
         .anchorPos (createFileUri docUri file) ((n : Int) - 1) 0 "View code",
         .markdown ("\n" ++ ("- " ++ c.comment) ++ "\n\n")]) ∧
    (∀ n m rest, c.lineNumbers = some (n :: m :: rest) → 1 ≤ n → 1 ≤ m →
      streamCommentWithAnchor c docUri file index =
        [.markdown (toString (index + 1) ++ ". "),
         (if (n : Int) ≤ (m : Int) then
            StreamEvent.anchorRange (createFileUri docUri file)
              ((n : Int) - 1) 0 ((m : Int) - 1) 0 "View code"
          else
            StreamEvent.anchorRange (createFileUri docUri file)
              ((m : Int) - 1) 0 ((n : Int) - 1) 0 "View code"),
         .markdown ("\n" ++ ("- " ++ c.comment) ++ "\n\n")]) ∧
    (∀ n rest, c.lineNumbers = some (n :: rest) →
        (n = 0 ∨ ∃ rest', rest = 0 :: rest') →
      streamCommentWithAnchor c docUri file index =
        [.markdown (toString (index + 1) ++ ". "),
         .markdown "View code",
         .markdown ("\n" ++ ("- " ++ c.comment) ++ "\n\n")]) ∧
    ((c.lineNumbers = none ∨ c.lineNumbers = some []) →
      streamCommentWithAnchor c docUri file index =
        [.markdown ("- " ++ c.comment ++ "\n\n")]) := by
  refine ⟨?_, ?_, ?_, ?_⟩
  · intro n h hn
    have hp : positionOk ((n : Int) - 1) 0 = true := (positionOk_parsed n).mpr hn
    simp [streamCommentWithAnchor, h, createCustomAnchor, hp]
  · intro n m rest h hn hm
    have hpn : positionOk ((n : Int) - 1) 0 = true := (positionOk_parsed n).mpr hn
    have hpm : positionOk ((m : Int) - 1) 0 = true := (positionOk_parsed m).mpr hm
    by_cases hnm : (n : Int) ≤ (m : Int)
    · have hr : rangeOf ((n : Int) - 1) 0 ((m : Int) - 1) 0 =
          ((n : Int) - 1, 0, (m : Int) - 1, 0) := by
        unfold rangeOf
        rw [if_pos (by omega)]
      simp [streamCommentWithAnchor, h, createCustomAnchor, hpn, hpm, hr, hnm]
    · have hr : rangeOf ((n : Int) - 1) 0 ((m : Int) - 1) 0 =
          ((m : Int) - 1, 0, (n : Int) - 1, 0) := by
        unfold rangeOf
        rw [if_neg (by omega)]
      simp [streamCommentWithAnchor, h, createCustomAnchor, hpn, hpm, hr, hnm]
  · intro n rest h h0
    have hpneg : positionOk (-1) 0 = false := by decide
    rcases h0 with rfl | ⟨rest', rfl⟩
    · cases rest with
      | nil => simp [streamCommentWithAnchor, h, createCustomAnchor, hpneg]
      | cons m rest2 => simp [streamCommentWithAnchor, h, createCustomAnchor, hpneg]
    · by_cases hn0 : n = 0
      · subst hn0
        simp [streamCommentWithAnchor, h, createCustomAnchor, hpneg]
      · have hpn : positionOk ((n : Int) - 1) 0 = true :=
          (positionOk_parsed n).mpr (by omega)
        simp [streamCommentWithAnchor, h, createCustomAnchor, hpn, hpneg]
  · rintro (h | h) <;> simp [streamCommentWithAnchor, h]

theorem streamCommentWithAnchor_amended_witness :
    (streamCommentWithAnchor (CodeReviewComment.mk (some "a.ts") (some [4]) "hm")
        "/w" "f" 1 =
      [.markdown (toString (1 + 1) ++ ". "),
       .anchorPos (createFileUri "/w" "f") (((4 : Nat) : Int) - 1) 0 "View code",
       .markdown ("\n" ++ ("- " ++ "hm") ++ "\n\n")]) ∧
    (streamCommentWithAnchor (CodeReviewComment.mk none (some [7, 3]) "swap")
        "/w" "a.ts" 0 =
      [.markdown (toString (0 + 1) ++ ". "),
       (if ((7 : Nat) : Int) ≤ ((3 : Nat) : Int) then
          StreamEvent.anchorRange (createFileUri "/w" "a.ts")
            (((7 : Nat) : Int) - 1) 0 (((3 : Nat) : Int) - 1) 0 "View code"
        else
          StreamEvent.anchorRange (createFileUri "/w" "a.ts")
            (((3 : Nat) : Int) - 1) 0 (((7 : Nat) : Int) - 1) 0 "View code"),
       .markdown ("\n" ++ ("- " ++ "swap") ++ "\n\n")]) :=
  ⟨(streamCommentWithAnchor_amended (CodeReviewComment.mk (some "a.ts") (some [4]) "hm")
      "/w" "f" 1).1 4 rfl (by decide),
   (streamCommentWithAnchor_amended (CodeReviewComment.mk none (some [7, 3]) "swap")
      "/w" "a.ts" 0).2.1 7 3 [] rfl (by decide) (by decide)⟩

theorem classifyGitError_spec (m : String) :
    (classifyGitError m).diff = "" ∧ (classifyGitError m).mainBranchName = "" ∧
    (classifyGitError m).error =
      some (if jsIncludes m "not a git repository" then NOT_A_REPO
        else if jsIncludes m "did not match any" then NO_MAIN_BRANCH
        else GENERIC_GIT_ERROR ++ m) := by
  unfold classifyGitError
  by_cases h1 : jsIncludes m "not a git repository" = true
  · simp [h1]
  · by_cases h2 : jsIncludes m "did not match any" = true <;> simp [h1, h2]

/-- Claim C4: `getDiffWithMainBranch` returns git's diff against the
reference branch, which is named `main` exactly when the branch listing
contains the substring `main` and `master` otherwise; on failure it
returns an empty diff and branch name with the error classified as
not-a-repository, missing-main-branch, or a generic git error carrying
the underlying message. -/
theorem getDiffWithMainBranch_spec (env : GitEnv) :
    ((getDiffWithMainBranch env).error = none →
      ∃ b, env.branchListing = .ok b ∧
        (getDiffWithMainBranch env).mainBranchName =
          (if jsIncludes b "main" then "main" else "master") ∧
        env.gitDiff (getDiffWithMainBranch env).mainBranchName =
          .ok (getDiffWithMainBranch env).diff) ∧
    (∀ e, (getDiffWithMainBranch env).error = some e →
      (getDiffWithMainBranch env).diff = "" ∧
      (getDiffWithMainBranch env).mainBranchName = "" ∧
      ∃ m,
        e = (if jsIncludes m "not a git repository" then NOT_A_REPO
             else if jsIncludes m "did not match any" then NO_MAIN_BRANCH
             else GENERIC_GIT_ERROR ++ m) ∧
        (env.branchListing = .error m ∨
         ∃ b, env.branchListing = .ok b ∧
           env.gitDiff (if jsIncludes b "main" then "main" else "master") = .error m)) := by
  cases hb : env.branchListing with
  | error e =>
    have hg : getDiffWithMainBranch env = classifyGitError e := by
      simp [getDiffWithMainBranch, hb]
    obtain ⟨hd1, hd2, hd3⟩ := classifyGitError_spec e
    constructor
    · intro h; rw [hg, hd3] at h; simp at h
    · intro e' he'
      rw [hg, hd3] at he'
      simp only [Option.some.injEq] at he'
      exact ⟨by rw [hg, hd1], by rw [hg, hd2], e, he'.symm, Or.inl rfl⟩
  | ok b =>
    cases hd : env.gitDiff (if jsIncludes b "main" then "main" else "master") with
    | error e =>
      have hg : getDiffWithMainBranch env = classifyGitError e := by
        simp [getDiffWithMainBranch, hb, hd]
      obtain ⟨hd1, hd2, hd3⟩ := classifyGitError_spec e
      constructor
      · intro h; rw [hg, hd3] at h; simp at h
      · intro e' he'
        rw [hg, hd3] at he'
        simp only [Option.some.injEq] at he'
        exact ⟨by rw [hg, hd1], by rw [hg, hd2], e, he'.symm, Or.inr ⟨b, rfl, hd⟩⟩
    | ok d =>
      have hg : getDiffWithMainBranch env =
          ⟨d, if jsIncludes b "main" then "main" else "master", none⟩ := by
        simp [getDiffWithMainBranch, hb, hd]
      rw [hg]
      constructor
      · intro _
        exact ⟨b, rfl, rfl, by rw [hd]⟩
      · intro e' he'
        simp at he'

theorem getDiffWithMainBranch_spec_witness :
    ∃ b, gitEnvMain.branchListing = .ok b ∧
      (getDiffWithMainBranch gitEnvMain).mainBranchName =
        (if jsIncludes b "main" then "main" else "master") ∧
      gitEnvMain.gitDiff (getDiffWithMainBranch gitEnvMain).mainBranchName =
        .ok (getDiffWithMainBranch gitEnvMain).diff :=
  (getDiffWithMainBranch_spec gitEnvMain).1 (by decide)

/-- Claim C6: a registered command's handler function runs exactly when
`handleCommandChecks` returns `true`, which holds if and only if the
prompt does not contain `/all`, is not a bare `@pr` mention after
trimming, and contains the command's trigger token; in every other case
a welcome, command-list, unrecognized-command or usage message is
streamed and the handler is not invoked. -/
theorem handleCommandChecks_gate (prompt commandTrigger : String)
    (body : List StreamEvent) :
    ((handleCommandChecks prompt commandTrigger).1 = true ↔
      (jsIncludes prompt "/all" = false ∧ barePrMention prompt = false ∧
       jsIncludes prompt commandTrigger = true)) ∧
    ((runRegisteredHandler prompt commandTrigger body).2 =
      (handleCommandChecks prompt commandTrigger).1) ∧
    ((handleCommandChecks prompt commandTrigger).1 = true →
      runRegisteredHandler prompt commandTrigger body = (body, true)) ∧
    ((handleCommandChecks prompt commandTrigger).1 = false →
      (runRegisteredHandler prompt commandTrigger body).2 = false ∧
      ∃ msg, (runRegisteredHandler prompt commandTrigger body).1 = [.markdown msg] ∧
        (msg = AVAILABLE_COMMANDS ∨ msg = welcomeMessage ∨
         (∃ cmd, msg = unrecognizedMessage cmd) ∨
         msg = usageMessage commandTrigger)) := by
  by_cases h1 : jsIncludes prompt "/all" = true
  · simp [runRegisteredHandler, handleCommandChecks, h1]
  · simp only [Bool.not_eq_true] at h1
    by_cases h2 : barePrMention prompt = true
    · simp [runRegisteredHandler, handleCommandChecks, h1, h2]
    · simp only [Bool.not_eq_true] at h2
      by_cases h3 : jsIncludes prompt commandTrigger = true
      · simp [runRegisteredHandler, handleCommandChecks, h1, h2, h3]
      · simp only [Bool.not_eq_true] at h3
        cases hc : findAttemptedCommand prompt.data with
        | some cmd =>
          simp [runRegisteredHandler, handleCommandChecks, h1, h2, h3, hc]
        | none =>
          simp [runRegisteredHandler, handleCommandChecks, h1, h2, h3, hc]

theorem handleCommandChecks_gate_witness :
    (handleCommandChecks "@pr /self-review please" "/self-review").1 = true ↔
      (jsIncludes "@pr /self-review please" "/all" = false ∧
       barePrMention "@pr /self-review please" = false ∧
       jsIncludes "@pr /self-review please" "/self-review" = true) :=
  (handleCommandChecks_gate "@pr /self-review please" "/self-review" []).1

/-- Claim C1: `streamCodeReview` either emits the structured, grouped
output or emits the original content unchanged as raw markdown; whenever
parsing yields no comments, or no parsed comment carries a (truthy) file
reference, or the workspace-folder error is thrown during processing, the
original review content is streamed verbatim and nothing else is
emitted. -/
theorem streamCodeReview_fallback (wf : Option String) (content : String) :
    ((∃ w, wf = some w ∧
        streamCodeReview wf content =
          structuredReviewOutput w (groupCommentsByFile (parseReviewComments content))) ∨
      ((streamCodeReview wf content).all isMarkdownEvent = true ∧
        emittedMarkdown (streamCodeReview wf content) = content)) ∧
    ((parseReviewComments content = [] ∨
        hasFileReferences (parseReviewComments content) = false ∨ wf = none) →
      (streamCodeReview wf content).all isMarkdownEvent = true ∧
      emittedMarkdown (streamCodeReview wf content) = content ∧
      (streamCodeReview wf content).length ≤ 1) := by
  by_cases h0 : content = ""
  · have hs : streamCodeReview wf content = [] := by
      simp [streamCodeReview, h0]
    rw [hs]
    subst h0
    refine ⟨Or.inr ⟨rfl, ?_⟩, fun _ => ⟨rfl, ?_, by simp⟩⟩ <;>
      simp [emittedMarkdown, mdTexts, string_join_nil]
  · by_cases h1 : parseReviewComments content = [] ∨
        hasFileReferences (parseReviewComments content) = false
    · have hs : streamCodeReview wf content = [.markdown content] := by
        simp [streamCodeReview, h0, h1]
      rw [hs]
      have hm : emittedMarkdown [StreamEvent.markdown content] = content := by
        simp [emittedMarkdown, mdTexts, string_join_cons, string_join_nil]
      exact ⟨Or.inr ⟨rfl, hm⟩, fun _ => ⟨rfl, hm, by simp⟩⟩
    · cases wf with
      | none =>
        have hs : streamCodeReview none content = [.markdown content] := by
          simp [streamCodeReview, h0, h1]
        rw [hs]
        have hm : emittedMarkdown [StreamEvent.markdown content] = content := by
          simp [emittedMarkdown, mdTexts, string_join_cons, string_join_nil]
        exact ⟨Or.inr ⟨rfl, hm⟩, fun _ => ⟨rfl, hm, by simp⟩⟩
      | some w =>
        have hs : streamCodeReview (some w) content =
            structuredReviewOutput w (groupCommentsByFile (parseReviewComments content)) := by
          simp [streamCodeReview, h0, h1]
        refine ⟨Or.inl ⟨w, rfl, hs⟩, fun h => ?_⟩
        rcases h with h | h | h
        · exact absurd (Or.inl h) h1
        · exact absurd (Or.inr h) h1
        · exact absurd h (by simp)

theorem streamCodeReview_fallback_witness :
    (streamCodeReview (some "/w") "just plain prose").all isMarkdownEvent = true ∧
    emittedMarkdown (streamCodeReview (some "/w") "just plain prose") = "just plain prose" ∧
    (streamCodeReview (some "/w") "just plain prose").length ≤ 1 :=
  (streamCodeReview_fallback (some "/w") "just plain prose").2 (by decide)

theorem getDiffWithMainBranch_error_blank (git : GitEnv) {e : String}
    (h : (getDiffWithMainBranch git).error = some e) :
    (getDiffWithMainBranch git).diff = "" := by
  cases hb : git.branchListing with
  | error m =>
    have hg : getDiffWithMainBranch git = classifyGitError m := by
      simp [getDiffWithMainBranch, hb]
    rw [hg]
    exact (classifyGitError_spec m).1
  | ok b =>
    cases hd : git.gitDiff (if jsIncludes b "main" then "main" else "master") with
    | error m =>
      have hg : getDiffWithMainBranch git = classifyGitError m := by
        simp [getDiffWithMainBranch, hb, hd]
      rw [hg]
      exact (classifyGitError_spec m).1
    | ok d =>
      have hg : getDiffWithMainBranch git =
          ⟨d, if jsIncludes b "main" then "main" else "master", none⟩ := by
        simp [getDiffWithMainBranch, hb, hd]
      rw [hg] at h
      simp at h

/-- Claim C5, counterexample: on a failed diff acquisition the self-review
handler does not stream the error message — `getDiffWithMainBranch`
catches internally and returns an empty diff, the handler never inspects
`diffResult.error`, and the blank-diff branch streams the no-changes
message instead. -/
theorem handlers_diff_gate_cex :
    (getDiffWithMainBranch gitEnvNoRepo).error = some NOT_A_REPO ∧
    mdTexts (handleReviewCodeCommand "@pr /self-review" (some "/w") gitEnvNoRepo []) =
      ["No code changes detected compared to the main branch."] ∧
    NOT_A_REPO ∉ mdTexts (handleReviewCodeCommand "@pr /self-review" (some "/w") gitEnvNoRepo []) := by
  decide

/-- Claim C5 (amended: the description handler streams the diff error
message and stops; the self-review handler never inspects the error and,
since a failed acquisition returns an empty diff, streams its no-changes
message instead; in every failure or blank-diff case no artifact is
produced and the language model is not reached): both handlers require an
open workspace folder and gate the generation stage on the diff. -/
theorem handlers_diff_gate_amended (prompt : String) (wf : Option String)
    (git : GitEnv) (review : List StreamEvent) (tmpl : PRTemplateResult)
    (cancelledAfter : Bool) (response : ICopilotResponse) :
    (wf = none →
      handleReviewCodeCommand prompt wf git review =
        [.markdown "Please open a workspace folder to review code differences."] ∧
      handleDescriptionCommand wf git tmpl cancelledAfter response =
        [.markdown "Please open a workspace folder to generate a PR description."]) ∧
    (∀ e, wf ≠ none → (getDiffWithMainBranch git).error = some e →
      mdTexts (handleDescriptionCommand wf git tmpl cancelledAfter response) = [e] ∧
      callsModel (handleDescriptionCommand wf git tmpl cancelledAfter response) = false ∧
      mdTexts (handleReviewCodeCommand prompt wf git review) =
        ["No code changes detected compared to the main branch."] ∧
      callsModel (handleReviewCodeCommand prompt wf git review) = false) ∧
    (wf ≠ none → trimS (getDiffWithMainBranch git).diff.data = "" →
      mdTexts (handleReviewCodeCommand prompt wf git review) =
        ["No code changes detected compared to the main branch."] ∧
      callsModel (handleReviewCodeCommand prompt wf git review) = false) ∧
    (wf ≠ none → (getDiffWithMainBranch git).error = none →
        trimS (getDiffWithMainBranch git).diff.data = "" →
      mdTexts (handleDescriptionCommand wf git tmpl cancelledAfter response) =
        ["No code differences found with main branch."] ∧
      callsModel (handleDescriptionCommand wf git tmpl cancelledAfter response) = false) := by
  cases wf with
  | none =>
    exact ⟨fun _ => ⟨rfl, rfl⟩, fun e hw => absurd rfl hw, fun hw => absurd rfl hw,
      fun hw => absurd rfl hw⟩
  | some w =>
    have hrev : trimS (getDiffWithMainBranch git).diff.data = "" →
        handleReviewCodeCommand prompt (some w) git review =
          [.progress "Analyzing code differences with main branch...",
           .markdown "No code changes detected compared to the main branch."] := by
      intro h
      simp [handleReviewCodeCommand, h]
    refine ⟨fun h => by simp at h, fun e _ he => ?_, fun _ ht => ?_, fun _ he ht => ?_⟩
    · have hblank : trimS (getDiffWithMainBranch git).diff.data = "" := by
        rw [getDiffWithMainBranch_error_blank git he]
        rfl
      have hd : handleDescriptionCommand (some w) git tmpl cancelledAfter response =
          [.progress "Analyzing code differences with main branch...", .markdown e] := by
        simp [handleDescriptionCommand, he]
      rw [hd, hrev hblank]
      exact ⟨rfl, rfl, rfl, rfl⟩
    · rw [hrev ht]
      exact ⟨rfl, rfl⟩
    · have hd : handleDescriptionCommand (some w) git tmpl cancelledAfter response =
          [.progress "Analyzing code differences with main branch...",
           .markdown "No code differences found with main branch."] := by
        simp [handleDescriptionCommand, he, ht]
      rw [hd]
      exact ⟨rfl, rfl⟩

theorem handlers_diff_gate_amended_witness :
    mdTexts (handleDescriptionCommand (some "/w") gitEnvNoRepo ⟨"", none⟩ false ⟨"", none⟩) =
      [NOT_A_REPO] ∧
    callsModel (handleDescriptionCommand (some "/w") gitEnvNoRepo ⟨"", none⟩ false ⟨"", none⟩) =
      false ∧
    mdTexts (handleReviewCodeCommand "@pr /self-review" (some "/w") gitEnvNoRepo []) =
      ["No code changes detected compared to the main branch."] ∧
    callsModel (handleReviewCodeCommand "@pr /self-review" (some "/w") gitEnvNoRepo []) = false :=
  (handlers_diff_gate_amended "@pr /self-review" (some "/w") gitEnvNoRepo []
      ⟨"", none⟩ false ⟨"", none⟩).2.1 NOT_A_REPO (by simp) (by decide)

theorem receiveLoop_error_blank (cancel : Nat → Bool) :
    ∀ (fs : List String) (i : Nat) (acc : String),
      (receiveLoop cancel i acc fs).error.isSome = true →
      (receiveLoop cancel i acc fs).content = "" := by
  intro fs
  induction fs with
  | nil => intro i acc h; simp [receiveLoop] at h
  | cons f fs ih =>
    intro i acc h
    by_cases hc : cancel i = true
    · simp [receiveLoop, hc, createErrorResponse]
    · simp only [Bool.not_eq_true] at hc
      simp only [receiveLoop, hc] at h ⊢
      simp only [Bool.false_eq_true, if_false] at h ⊢
      exact ih (i + 1) (acc ++ f) h

theorem receiveLoop_ok_content (cancel : Nat → Bool) :
    ∀ (fs : List String) (i : Nat) (acc : String),
      (receiveLoop cancel i acc fs).error = none →
      (receiveLoop cancel i acc fs).content = acc ++ String.join fs := by
  intro fs
  induction fs with
  | nil =>
    intro i acc _
    simp [receiveLoop, string_join_nil]
  | cons f fs ih =>
    intro i acc h
    by_cases hc : cancel i = true
    · simp [receiveLoop, hc, createErrorResponse] at h
    · simp only [Bool.not_eq_true] at hc
      simp only [receiveLoop, hc, Bool.false_eq_true, if_false] at h ⊢
      rw [ih (i + 1) (acc ++ f) h, string_join_cons, String.append_assoc]

theorem sendRequestToModel_spec_aux (env : ModelRequestEnv) :
    ((sendRequestToModel env).error.isSome = true →
      (sendRequestToModel env).content = "") ∧
    ((sendRequestToModel env).error = none →
      ∃ frags, env.sendResult = .ok frags ∧
        (sendRequestToModel env).content = String.join frags) := by
  by_cases hc : env.cancelledBeforeSend = true
  · have hs : sendRequestToModel env = createErrorResponse COPILOT_CANCELLED := by
      simp [sendRequestToModel, hc]
    rw [hs]
    exact ⟨fun _ => rfl, fun h => by simp [createErrorResponse] at h⟩
  · simp only [Bool.not_eq_true] at hc
    cases hr : env.sendResult with
    | error e =>
      have hs : sendRequestToModel env = handleServiceError e := by
        simp [sendRequestToModel, hc, hr]
      rw [hs]
      cases e with
      | err m =>
        exact ⟨fun _ => rfl, fun h => by simp [handleServiceError, createErrorResponse] at h⟩
      | nonError =>
        exact ⟨fun _ => rfl, fun h => by simp [handleServiceError, createErrorResponse] at h⟩
    | ok frags =>
      have hs : sendRequestToModel env = receiveLoop env.cancelDuring 0 "" frags := by
        simp [sendRequestToModel, hc, hr]
      rw [hs]
      refine ⟨receiveLoop_error_blank env.cancelDuring frags 0 "", fun h => ?_⟩
      refine ⟨frags, rfl, ?_⟩
      have := receiveLoop_ok_content env.cancelDuring frags 0 "" h
      simpa using this

/-- Claim C10: every response of `sendRequestToModel` (and hence of
`generatePRDescriptionWithCopilot`) with the error field set has empty
content — partial streamed content is discarded on cancellation or
failure — and every response without an error carries exactly the
concatenation, in arrival order, of all streamed response fragments. -/
theorem sendRequestToModel_content (env : ModelRequestEnv) (genv : PRDescGenEnv) :
    ((sendRequestToModel env).error.isSome = true →
      (sendRequestToModel env).content = "") ∧
    ((sendRequestToModel env).error = none →
      ∃ frags, env.sendResult = .ok frags ∧
        (sendRequestToModel env).content = String.join frags) ∧
    ((generatePRDescriptionWithCopilot genv).error.isSome = true →
      (generatePRDescriptionWithCopilot genv).content = "") ∧
    ((generatePRDescriptionWithCopilot genv).error = none →
      ∃ frags, genv.request.sendResult = .ok frags ∧
        (generatePRDescriptionWithCopilot genv).content = String.join frags) := by
  obtain ⟨h1, h2⟩ := sendRequestToModel_spec_aux env
  refine ⟨h1, h2, ?_, ?_⟩ <;>
  · unfold generatePRDescriptionWithCopilot
    by_cases ha : genv.cancelledAtStart = true
    · simp [ha, createErrorResponse]
    · simp only [Bool.not_eq_true] at ha
      by_cases hb : genv.modelFound = true
      · by_cases hm : genv.messagesOk = true
        · simp only [ha, hb, hm, Bool.false_eq_true, if_false, Bool.not_true, if_true]
          first
          | exact (sendRequestToModel_spec_aux genv.request).1
          | exact (sendRequestToModel_spec_aux genv.request).2
        · simp only [Bool.not_eq_true] at hm
          simp [ha, hb, hm, createErrorResponse]
      · simp only [Bool.not_eq_true] at hb
        simp [ha, hb, createErrorResponse]

theorem mem_insert_fold (l : List String) :
    ∀ (acc : List String) (x : String),
      x ∈ l.foldl (fun acc f => if f ∈ acc then acc else acc ++ [f]) acc ↔
        x ∈ acc ∨ x ∈ l := by
  induction l with
  | nil => intro acc x; simp
  | cons f fs ih =>
    intro acc x
    rw [List.foldl_cons, ih]
    by_cases hf : f ∈ acc
    · rw [if_pos hf]
      simp only [List.mem_cons]
      constructor
      · rintro (h | h)
        · exact Or.inl h
        · exact Or.inr (Or.inr h)
      · rintro (h | h | h)
        · exact Or.inl h
        · exact Or.inl (h ▸ hf)
        · exact Or.inr h
    · rw [if_neg hf]
      simp only [List.mem_append, List.mem_singleton, List.mem_cons]
      tauto

theorem mem_firstKeys (cs : List CodeReviewComment) (x : String) :
    x ∈ firstKeys cs ↔ x ∈ cs.filterMap truthyFile := by
  unfold firstKeys
  rw [mem_insert_fold]
  simp

theorem truthyFile_ne_empty {c : CodeReviewComment} {x : String}
    (h : truthyFile c = some x) : x ≠ "" := by
  intro hx
  subst hx
  rcases c with ⟨file, ln, cm⟩
  rcases file with _ | f
  · simp [truthyFile] at h
  · by_cases hf : (f == "") = true
    · simp [truthyFile, hf] at h
    · simp [truthyFile, hf] at h
      exact absurd h (by simpa using hf)

theorem firstKeys_ne_empty {cs : List CodeReviewComment} {x : String}
    (h : x ∈ firstKeys cs) : x ≠ "" := by
  rw [mem_firstKeys] at h
  obtain ⟨c, _, hc⟩ := List.mem_filterMap.mp h
  exact truthyFile_ne_empty hc

theorem firstKeys_snoc (pre : List CodeReviewComment) (c : CodeReviewComment) :
    firstKeys (pre ++ [c]) =
      match truthyFile c with
      | none => firstKeys pre
      | some f => if f ∈ firstKeys pre then firstKeys pre else firstKeys pre ++ [f] := by
  unfold firstKeys
  rw [List.filterMap_append, List.foldl_append]
  cases h : truthyFile c <;> simp [h]

theorem filter_snoc_notMem {pre : List CodeReviewComment} {f : String}
    (hmem : f ∉ firstKeys pre) (hf : f ≠ "") :
    pre.filter (fun c => c.file == some f) = [] := by
  rw [List.filter_eq_nil_iff]
  intro c hc hcf
  simp only [beq_iff_eq] at hcf
  apply hmem
  rw [mem_firstKeys]
  exact List.mem_filterMap.mpr ⟨c, hc, by simp [truthyFile, hcf, hf]⟩

theorem groupStep_spec (pre : List CodeReviewComment) (c : CodeReviewComment) :
    (match c.file with
      | some f => if !(f == "") then insertGroup (groupSpec pre) f c else groupSpec pre
      | none => groupSpec pre) = groupSpec (pre ++ [c]) := by
  rcases hcf : c.file with _ | f
  · have ht : truthyFile c = none := by simp [truthyFile, hcf]
    simp only [groupSpec, firstKeys_snoc, ht]
    apply List.map_congr_left
    intro k _
    rw [List.filter_append]
    simp [hcf]
  · by_cases hf : (f == "") = true
    · have hf' : f = "" := by simpa using hf
      have ht : truthyFile c = none := by simp [truthyFile, hcf, hf']
      simp only [hf, Bool.not_true, Bool.false_eq_true, if_false]
      simp only [groupSpec, firstKeys_snoc, ht]
      apply List.map_congr_left
      intro k hk
      rw [List.filter_append]
      have hk' : k ≠ "" := firstKeys_ne_empty hk
      have : (c.file == some k) = false := by
        simp [hcf, hf']
        exact fun h => hk' h.symm
      simp [this]
    · have hf' : f ≠ "" := by simpa using hf
      have ht : truthyFile c = some f := by simp [truthyFile, hcf, hf]
      simp only [hf, Bool.not_false, if_true]
      by_cases hmem : f ∈ firstKeys pre
      · have hany : (groupSpec pre).any (fun p => p.1 == f) = true := by
          rw [List.any_eq_true]
          exact ⟨(f, pre.filter (fun c => c.file == some f)),
            List.mem_map.mpr ⟨f, hmem, rfl⟩, by simp⟩
        rw [insertGroup, if_pos hany]
        simp only [groupSpec, firstKeys_snoc, ht, if_pos hmem, List.map_map]
        apply List.map_congr_left
        intro k _
        by_cases hk : (k == f) = true
        · have hk' : k = f := by simpa using hk
          subst hk'
          simp [List.filter_append, hcf]
        · have hk' : ¬k = f := by simpa using hk
          simp only [Function.comp_apply, hk, Bool.false_eq_true, if_false]
          rw [List.filter_append]
          have : (c.file == some k) = false := by
            simp [hcf]
            exact fun h => hk' h.symm
          simp [this]
      · have hany : (groupSpec pre).any (fun p => p.1 == f) = false := by
          rw [Bool.eq_false_iff]
          intro hany
          rw [List.any_eq_true] at hany
          obtain ⟨p, hp, hpf⟩ := hany
          obtain ⟨k, hk, rfl⟩ := List.mem_map.mp hp
          simp only [beq_iff_eq] at hpf
          exact hmem (hpf ▸ hk)
        rw [insertGroup, hany]
        simp only [Bool.false_eq_true, if_false]
        simp only [groupSpec, firstKeys_snoc, ht, if_neg hmem, List.map_append]
        congr 1
        · apply List.map_congr_left
          intro k hk
          rw [List.filter_append]
          have hk' : k ≠ f := fun h => hmem (h ▸ hk)
          have : (c.file == some k) = false := by
            simp [hcf]
            exact fun h => hk' h.symm
          simp [this]
        · simp only [List.map_cons, List.map_nil]
          rw [List.filter_append, filter_snoc_notMem hmem hf']
          simp [hcf]

theorem groupFold_spec (post : List CodeReviewComment) :
    ∀ pre : List CodeReviewComment,
      post.foldl
        (fun m c =>
          match c.file with
          | some f => if !(f == "") then insertGroup m f c else m
          | none => m)
        (groupSpec pre) = groupSpec (pre ++ post) := by
  induction post with
  | nil => intro pre; simp
  | cons c post ih =>
    intro pre
    rw [List.foldl_cons, groupStep_spec pre c, ih (pre ++ [c])]
    simp

theorem groupCommentsByFile_eq_spec (comments : List CodeReviewComment) :
    groupCommentsByFile comments =
      if (groupSpec comments).isEmpty && !comments.isEmpty then
        [("Current File", comments)]
      else groupSpec comments := by
  unfold groupCommentsByFile
  have h0 : groupSpec ([] : List CodeReviewComment) = [] := rfl
  have := groupFold_spec comments []
  rw [h0] at this
  rw [this]
  simp

theorem truthyFile_eq_none_iff (c : CodeReviewComment) :
    truthyFile c = none ↔ truthy c.file = false := by
  unfold truthyFile truthy
  rcases c.file with _ | f
  · simp
  · by_cases hf : (f == "") = true <;> simp [hf]

/-- Claim C8, counterexample: the parser can emit a comment whose `file`
field is defined but empty (from a blank heading); `groupCommentsByFile`
then places it under `'Current File'` rather than under its own file as
key, so "defined" must be read as "non-empty". -/
theorem groupCommentsByFile_cex :
    (∃ c ∈ parseReviewComments "#   \n- foo", c.file = some "") ∧
    groupCommentsByFile (parseReviewComments "#   \n- foo") =
      [("Current File", parseReviewComments "#   \n- foo")] ∧
    ¬∃ p ∈ groupCommentsByFile (parseReviewComments "#   \n- foo"), p.1 = "" := by
  decide

/-- Claim C8 (amended: "defined file field" reads "non-empty file
field"): when some comment has a non-empty file, the result is exactly
one group per distinct non-empty file in first-occurrence order, each
holding exactly the comments bearing that file in input order (so
comments with an absent or empty file appear in no group); when no
comment has a non-empty file and the list is non-empty, all comments are
grouped under `'Current File'`; the result is non-empty whenever the
input is. -/
theorem groupCommentsByFile_amended (comments : List CodeReviewComment) :
    (comments.any (fun c => truthy c.file) = true →
      groupCommentsByFile comments = groupSpec comments) ∧
    (comments.any (fun c => truthy c.file) = false → comments ≠ [] →
      groupCommentsByFile comments = [("Current File", comments)]) ∧
    (comments ≠ [] → groupCommentsByFile comments ≠ []) := by
  have hmain := groupCommentsByFile_eq_spec comments
  have hkeysnil : groupSpec comments = [] ↔
      (comments.filterMap truthyFile) = [] := by
    unfold groupSpec
    constructor
    · intro h
      rcases hfm : comments.filterMap truthyFile with _ | ⟨x, xs⟩
      · rfl
      · exfalso
        have hx : x ∈ firstKeys comments := by
          rw [mem_firstKeys, hfm]; exact List.mem_cons_self _ _
        rw [List.map_eq_nil_iff] at h
        exact absurd (h ▸ hx) (List.not_mem_nil x)
    · intro h
      have : firstKeys comments = [] := by unfold firstKeys; rw [h]; rfl
      rw [this]; rfl
  refine ⟨?_, ?_, ?_⟩
  · intro hany
    rw [List.any_eq_true] at hany
    obtain ⟨c, hc, hct⟩ := hany
    have hcf : truthyFile c ≠ none := by
      rw [Ne, truthyFile_eq_none_iff, hct]; simp
    have hne : groupSpec comments ≠ [] := by
      intro h
      rw [hkeysnil, List.filterMap_eq_nil_iff] at h
      exact hcf (h c hc)
    rw [hmain, if_neg]
    simp only [Bool.and_eq_true, List.isEmpty_iff, not_and]
    intro h
    exact absurd h hne
  · intro hany hne
    have hall : comments.filterMap truthyFile = [] := by
      rw [List.filterMap_eq_nil_iff]
      intro c hc
      rw [truthyFile_eq_none_iff]
      rcases hb : truthy c.file with _ | _
      · rfl
      · exfalso
        have : comments.any (fun c => truthy c.file) = true :=
          List.any_eq_true.mpr ⟨c, hc, hb⟩
        rw [this] at hany; cases hany
    rw [hmain, if_pos]
    rw [Bool.and_eq_true]
    constructor
    · rw [List.isEmpty_iff, hkeysnil]; exact hall
    · simpa using hne
  · intro hne
    rcases hany : comments.any (fun c => truthy c.file) with _ | _
    · have hall : comments.filterMap truthyFile = [] := by
        rw [List.filterMap_eq_nil_iff]
        intro c hc
        rw [truthyFile_eq_none_iff]
        by_contra hb
        have hb' : truthy c.file = true := by
          rcases h : truthy c.file with _ | _
          · exact absurd h hb
          · rfl
        have : comments.any (fun c => truthy c.file) = true :=
          List.any_eq_true.mpr ⟨c, hc, hb'⟩
        rw [this] at hany; cases hany
      rw [hmain, if_pos]
      · simp
      · rw [Bool.and_eq_true]
        exact ⟨by rw [List.isEmpty_iff, hkeysnil]; exact hall, by simpa using hne⟩
    · have hgs : groupSpec comments ≠ [] := by
        rw [List.any_eq_true] at hany
        obtain ⟨c, hc, hct⟩ := hany
        intro h
        rw [hkeysnil, List.filterMap_eq_nil_iff] at h
        have := h c hc
        rw [truthyFile_eq_none_iff, hct] at this
        cases this
      rw [hmain]
      split
      · simp
      · exact hgs

theorem groupCommentsByFile_amended_witness :
    groupCommentsByFile
        [CodeReviewComment.mk (some "a.ts") none "x",
         CodeReviewComment.mk none none "y",
         CodeReviewComment.mk (some "a.ts") none "z"] =
      groupSpec
        [CodeReviewComment.mk (some "a.ts") none "x",
         CodeReviewComment.mk none none "y",
         CodeReviewComment.mk (some "a.ts") none "z"] :=
  (groupCommentsByFile_amended
    [CodeReviewComment.mk (some "a.ts") none "x",
     CodeReviewComment.mk none none "y",
     CodeReviewComment.mk (some "a.ts") none "z"]).1 (by decide)

theorem firstInline_skip {l : List Char} (hs : skipLine l = true)
    (pre : List (List Char)) :
    firstInlineNonSkipped (l :: pre) = firstInlineNonSkipped pre := by
  simp [firstInlineNonSkipped, hs]

theorem firstInline_found {l g : List Char}
    (hs : skipLine l = false) (hg : findInline l = some g)
    (pre : List (List Char)) :
    firstInlineNonSkipped (l :: pre) = some (trimS g) := by
  simp [firstInlineNonSkipped, hs, hg]

theorem firstInline_notfound {l : List Char}
    (hs : skipLine l = false) (hg : findInline l = none)
    (pre : List (List Char)) :
    firstInlineNonSkipped (l :: pre) = firstInlineNonSkipped pre := by
  simp [firstInlineNonSkipped, hs, hg]

theorem resolve_skip {l : List Char} (hs : skipLine l = true)
    (file0 : Option String) (pre : List (List Char)) :
    resolveFileAmended file0 (l :: pre) = resolveFileAmended file0 pre := by
  unfold resolveFileAmended
  rw [firstInline_skip hs]

theorem resolve_truthy {file0 : Option String} (hf : truthy file0 = true)
    (pre : List (List Char)) :
    resolveFileAmended file0 pre = file0 := by
  unfold resolveFileAmended
  rw [if_pos hf]

theorem resolve_found {file0 : Option String} {l g : List Char}
    (hs : skipLine l = false) (hg : findInline l = some g)
    (hf : truthy file0 = false) (pre : List (List Char)) :
    resolveFileAmended file0 (l :: pre) = some (trimS g) := by
  unfold resolveFileAmended
  rw [if_neg (by simp [hf]), firstInline_found hs hg]

theorem resolve_notfound {l : List Char}
    (hs : skipLine l = false) (hg : findInline l = none)
    (file0 : Option String) (pre : List (List Char)) :
    resolveFileAmended file0 (l :: pre) = resolveFileAmended file0 pre := by
  unfold resolveFileAmended
  rw [firstInline_notfound hs hg]

theorem dot_mem_matchInlineHere :
    ∀ {s g : List Char}, matchInlineHere s = some g → '.' ∈ g := by
  intro s g h
  simp only [matchInlineHere] at h
  split at h
  · exact absurd h (by simp)
  · split at h
    · exact absurd h (by simp)
    · simp only [Option.some.injEq] at h
      subst h
      exact List.mem_append_right _ (List.mem_cons_self _ _)

theorem dot_mem_findInline :
    ∀ {s g : List Char}, findInline s = some g → '.' ∈ g := by
  intro s
  induction s with
  | nil => intro g h; simp [findInline] at h
  | cons c rest ih =>
    intro g h
    rw [findInline] at h
    cases hm : matchInlineHere (c :: rest) with
    | some g' =>
      rw [hm] at h
      simp only [Option.some.injEq] at h
      subst h
      exact dot_mem_matchInlineHere hm
    | none =>
      rw [hm] at h
      exact ih h

theorem mem_dropWhile_of_neg {α : Type} {p : α → Bool} {x : α}
    (hx : p x = false) :
    ∀ {l : List α}, x ∈ l → x ∈ l.dropWhile p := by
  intro l
  induction l with
  | nil => intro h; simp at h
  | cons y ys ih =>
    intro h
    rw [List.dropWhile_cons]
    by_cases hy : p y = true
    · rw [if_pos hy]
      rcases List.mem_cons.mp h with rfl | h'
      · rw [hx] at hy; cases hy
      · exact ih h'
    · rw [if_neg hy]
      exact h

theorem jsTrimL_ne_nil {l : List Char} {x : Char} (hx : isJsWs x = false)
    (hmem : x ∈ l) : jsTrimL l ≠ [] := by
  intro h
  unfold jsTrimL at h
  rw [List.reverse_eq_nil_iff, List.dropWhile_eq_nil_iff] at h
  have hx1 : x ∈ (l.dropWhile isJsWs).reverse :=
    List.mem_reverse.mpr (mem_dropWhile_of_neg hx hmem)
  have := h _ hx1
  rw [hx] at this
  cases this

theorem inline_file_truthy {line g : List Char} (h : findInline line = some g) :
    truthy (some (trimS g)) = true := by
  have hdot : '.' ∈ g := dot_mem_findInline h
  have hne : jsTrimL g ≠ [] := jsTrimL_ne_nil (by decide) hdot
  unfold truthy trimS
  rw [Bool.not_eq_true']
  rw [beq_eq_false_iff_ne]
  intro heq
  exact hne (congrArg String.data heq)

theorem firstInline_append (s t : List (List Char)) :
    firstInlineNonSkipped (s ++ t) =
      match firstInlineNonSkipped s with
      | some f => some f
      | none => firstInlineNonSkipped t := by
  induction s with
  | nil => simp [firstInlineNonSkipped]
  | cons l s ih =>
    by_cases hs : skipLine l = true
    · rw [List.cons_append, firstInline_skip hs, firstInline_skip hs, ih]
    · simp only [Bool.not_eq_true] at hs
      cases hg : findInline l with
      | some g =>
        rw [List.cons_append, firstInline_found hs hg, firstInline_found hs hg]
      | none =>
        rw [List.cons_append, firstInline_notfound hs hg,
          firstInline_notfound hs hg, ih]

theorem firstInline_some_truthy :
    ∀ {s : List (List Char)} {f : String},
      firstInlineNonSkipped s = some f → truthy (some f) = true := by
  intro s
  induction s with
  | nil => intro f h; simp [firstInlineNonSkipped] at h
  | cons l rest ih =>
    intro f h
    by_cases hs : skipLine l = true
    · rw [firstInline_skip hs] at h
      exact ih h
    · simp only [Bool.not_eq_true] at hs
      cases hg : findInline l with
      | some g =>
        rw [firstInline_found hs hg] at h
        simp only [Option.some.injEq] at h
        subst h
        exact inline_file_truthy hg
      | none =>
        rw [firstInline_notfound hs hg] at h
        exact ih h

theorem resolve_nil (file0 : Option String) :
    resolveFileAmended file0 [] = file0 := by
  unfold resolveFileAmended firstInlineNonSkipped
  split <;> rfl

theorem resolve_snoc_skip {l : List Char} (hs : skipLine l = true)
    (file0 : Option String) (seen : List (List Char)) :
    resolveFileAmended file0 (seen ++ [l]) = resolveFileAmended file0 seen := by
  unfold resolveFileAmended
  rw [firstInline_append]
  rw [firstInline_skip hs]
  cases firstInlineNonSkipped seen <;> simp [firstInlineNonSkipped]

theorem resolve_snoc_step {l : List Char} (hs : skipLine l = false)
    (file0 : Option String) (seen : List (List Char)) :
    resolveFileAmended file0 (seen ++ [l]) =
      (if truthy (resolveFileAmended file0 seen) then resolveFileAmended file0 seen
       else
         match findInline l with
         | some g => some (trimS g)
         | none => resolveFileAmended file0 seen) := by
  by_cases hf0 : truthy file0 = true
  · rw [resolve_truthy hf0, resolve_truthy hf0, if_pos hf0]
  · simp only [Bool.not_eq_true] at hf0
    cases hfi : firstInlineNonSkipped seen with
    | some f =>
      have hres : resolveFileAmended file0 seen = some f := by
        unfold resolveFileAmended
        rw [if_neg (by simp [hf0]), hfi]
      have hresl : resolveFileAmended file0 (seen ++ [l]) = some f := by
        unfold resolveFileAmended
        rw [if_neg (by simp [hf0]), firstInline_append, hfi]
      rw [hres, hresl, if_pos (firstInline_some_truthy hfi)]
    | none =>
      have hres : resolveFileAmended file0 seen = file0 := by
        unfold resolveFileAmended
        rw [if_neg (by simp [hf0]), hfi]
      rw [hres, if_neg (by simp [hf0])]
      cases hg : findInline l with
      | some g =>
        unfold resolveFileAmended
        rw [if_neg (by simp [hf0]), firstInline_append, hfi,
          firstInline_found hs hg]
      | none =>
        unfold resolveFileAmended
        rw [if_neg (by simp [hf0]), firstInline_append, hfi,
          firstInline_notfound hs hg]
        simp [firstInlineNonSkipped]

theorem parseLinesLoop_eq_amendedAux (file0 : Option String) :
    ∀ (rest seen : List (List Char)),
      parseLinesLoop (resolveFileAmended file0 seen) rest =
        amendedLinesAux file0 seen rest := by
  intro rest
  induction rest with
  | nil => intro seen; rfl
  | cons l rest ih =>
    intro seen
    by_cases hs : skipLine l = true
    · have h1 : parseLinesLoop (resolveFileAmended file0 seen) (l :: rest) =
          parseLinesLoop (resolveFileAmended file0 seen) rest := by
        simp [parseLinesLoop, hs]
      have h2 : amendedLinesAux file0 seen (l :: rest) =
          amendedLinesAux file0 (seen ++ [l]) rest := by
        simp [amendedLinesAux, hs]
      rw [h1, h2, ← resolve_snoc_skip hs file0 seen, ih]
    · simp only [Bool.not_eq_true] at hs
      have hstep := resolve_snoc_step hs file0 seen
      have h1 : parseLinesLoop (resolveFileAmended file0 seen) (l :: rest) =
          CodeReviewComment.mk (resolveFileAmended file0 (seen ++ [l]))
              (lineNumbersOf l) (strip l) ::
            parseLinesLoop (resolveFileAmended file0 (seen ++ [l])) rest := by
        rw [hstep]
        simp [parseLinesLoop, hs]
      have h2 : amendedLinesAux file0 seen (l :: rest) =
          CodeReviewComment.mk (resolveFileAmended file0 (seen ++ [l]))
              (lineNumbersOf l) (strip l) ::
            amendedLinesAux file0 (seen ++ [l]) rest := by
        simp [amendedLinesAux, hs]
      rw [h1, h2, ih]

theorem parseLinesLoop_eq_amended (file0 : Option String)
    (lines : List (List Char)) :
    parseLinesLoop file0 lines = amendedLinesAux file0 [] lines := by
  have := parseLinesLoop_eq_amendedAux file0 lines []
  rwa [resolve_nil] at this

/-- Claim C2, counterexample: the parser's `file` variable is sticky
across lines of a section, so a finding can take its file from an
*earlier* line's inline reference — not from the heading, the first three
lines, or the line itself, as the claim reads. -/
theorem parseReviewComments_claim_cex :
    parseReviewComments "a\nb\nc\n- bug in foo.ts here\n- second issue\n" ≠
      parseReviewCommentsClaim "a\nb\nc\n- bug in foo.ts here\n- second issue\n" := by
  decide

/-- Claim C2 (amended: within a section, the file of a finding is taken
from the section heading or, failing that, from an inline reference in
the section's first three lines or on the current or the nearest earlier
non-skipped line — the first such reference found applies to the finding
and to all later findings of the section): `parseReviewComments` is
exactly the section/line decomposition with per-line optional line
numbers and stripped comment text described by the claim. -/
theorem parseReviewComments_amended_eq (content : String) :
    parseReviewComments content = parseReviewCommentsAmended content := by
  unfold parseReviewComments parseReviewCommentsAmended
  congr 1
  apply List.map_congr_left
  intro sec _
  unfold parseSectionComments parseSectionCommentsAmended
  exact parseLinesLoop_eq_amended (sectionInitialFile sec) (splitLines sec)

theorem parseLinesLoop_mem (lines : List (List Char)) :
    ∀ (file : Option String) (c : CodeReviewComment), c ∈ parseLinesLoop file lines →
      ∃ l ∈ lines, skipLine l = false ∧ c.lineNumbers = lineNumbersOf l := by
  induction lines with
  | nil => intro file c h; simp [parseLinesLoop] at h
  | cons l rest ih =>
    intro file c h
    by_cases hs : skipLine l = true
    · simp only [parseLinesLoop, hs, if_true] at h
      obtain ⟨l', hl', hc⟩ := ih file c h
      exact ⟨l', List.mem_cons_of_mem _ hl', hc⟩
    · simp only [Bool.not_eq_true] at hs
      simp only [parseLinesLoop, hs, Bool.false_eq_true, if_false] at h
      rcases List.mem_cons.mp h with rfl | h'
      · exact ⟨l, List.mem_cons_self _ _, hs, rfl⟩
      · obtain ⟨l', hl', hc⟩ := ih _ c h'
        exact ⟨l', List.mem_cons_of_mem _ hl', hc⟩

/-- Claim C9: every comment produced by `parseSectionComments` has a
`lineNumbers` field that is absent or a list of one or two integers,
equal to `lineNumbersOf` of the comment's source line — i.e. built from
the first line-reference match of that line, with the second element
taken from the range suffix of that same match. -/
theorem parseSectionComments_lineNumbers (sec : List Char) (c : CodeReviewComment)
    (h : c ∈ parseSectionComments sec) :
    (∃ l ∈ splitLines sec, skipLine l = false ∧ c.lineNumbers = lineNumbersOf l) ∧
    (c.lineNumbers = none ∨ (∃ n, c.lineNumbers = some [n]) ∨
      ∃ n m, c.lineNumbers = some [n, m]) := by
  have h1 := parseLinesLoop_mem (splitLines sec) (sectionInitialFile sec) c h
  refine ⟨h1, ?_⟩
  obtain ⟨l, _, _, hln⟩ := h1
  rw [hln]
  rcases hf : findLineRef l with _ | ⟨pos, len, n, _ | m⟩ <;>
    simp [lineNumbersOf, hf]

theorem parseSectionComments_lineNumbers_witness :
    (∃ l ∈ splitLines "x\n- line 3-5: fix".data, skipLine l = false ∧
      (CodeReviewComment.mk none (some [3, 5]) "fix").lineNumbers = lineNumbersOf l) ∧
    ((CodeReviewComment.mk none (some [3, 5]) "fix").lineNumbers = none ∨
      (∃ n, (CodeReviewComment.mk none (some [3, 5]) "fix").lineNumbers = some [n]) ∨
      ∃ n m, (CodeReviewComment.mk none (some [3, 5]) "fix").lineNumbers = some [n, m]) :=
  parseSectionComments_lineNumbers "x\n- line 3-5: fix".data
    (CodeReviewComment.mk none (some [3, 5]) "fix") (by decide)

theorem sendRequestToModel_content_witness :
    ∃ frags,
      (ModelRequestEnv.mk false (.ok ["Looks ", "good."]) (fun _ => false)).sendResult =
        .ok frags ∧
      (sendRequestToModel
          (ModelRequestEnv.mk false (.ok ["Looks ", "good."]) (fun _ => false))).content =
        String.join frags :=
  (sendRequestToModel_content
      (ModelRequestEnv.mk false (.ok ["Looks ", "good."]) (fun _ => false))
      ⟨false, true, true, ⟨false, .ok [], fun _ => false⟩⟩).2.1 (by decide)

end CCR
